import Mathlib

/-!
# Verification of the prisma-redis-middleware caching extension

A shallow embedding of `src/extension.ts` (`createPrismaRedisCacheExtension`
and its `$allOperations` interception pipeline).  Pure data (configuration,
registry of cache bindings, tag store) is modelled by explicit state passing;
the asynchronous control flow of one intercepted operation is modelled by a
sequential step function that also emits a trace of the events the JavaScript
code initiates, in their synchronous initiation order (a promise created with
no `await` starts before the statements that follow it, and settles only
after the surrounding function body has run to its own next suspension
point).  Fallible calls return `Except`.
-/

set_option autoImplicit false

namespace PrismaCache

/-- String containment helper: is `p` a prefix of `s` (as char lists)? -/
def hasPrefixL : List Char → List Char → Bool
  | [], _ => true
  | _ :: _, [] => false
  | a :: p, b :: s => a == b && hasPrefixL p s

/-- String containment helper: does `p` occur inside `s` (as char lists)? -/
def hasSubstrL (p s : List Char) : Bool :=
  match s with
  | [] => p.isEmpty
  | _ :: t => hasPrefixL p s || hasSubstrL p t

/-- Does the string `s` contain `pat` as a substring?  Used to give the glob
pattern `*X~*` (the only pattern shape the code ever builds, at
`cache.invalidateAll` call sites) its matching semantics: `*X~*` matches a
stored reference string exactly when the string contains `X~`. -/
def strContains (s pat : String) : Bool :=
  hasSubstrL pat.toList s.toList

/-- `DEFAULT_CACHE_TIME` from `src/extension.ts` line 12. -/
def DEFAULT_CACHE_TIME : Nat := 0

/-- Modelled from the spec: the built-in list of mutating operation names
(`defaultMutationMethods` lives in `src/cacheMethods.ts`, which is not part
of the provided sources).  The spec fixes it as a closed enumeration:
"create, update, delete, and their bulk/upsert variants". -/
def defaultMutationMethods : List String :=
  ["create", "createMany", "update", "updateMany", "upsert", "delete", "deleteMany"]

/-- Modelled from the spec: the built-in list of cacheable read operation
names (`defaultCacheMethods` lives in `src/cacheMethods.ts`, which is not
part of the provided sources).  The spec's read kinds include the query
methods named in its scenarios (`findMany`, `count`) and the usual
non-mutating query operations; the enumeration is disjoint from
`defaultMutationMethods`. -/
def defaultCacheMethods : List String :=
  ["findUnique", "findFirst", "findMany", "count", "aggregate", "groupBy"]

/-- One entry of the `models` configuration option (a `ModelCacheRule`). -/
structure ModelCacheRule where
  model : String
  cacheTime : Option Nat
  cacheKey : Option String
  excludeMethods : Option (List String)
  invalidateRelated : Option (List String)
deriving DecidableEq

/-- The configuration record taken by `createPrismaRedisCacheExtension`
(the fields the core logic reads; storage descriptor, hooks and transformer
are opaque collaborators).  `cacheTime = none` models an absent argument,
defaulted to `DEFAULT_CACHE_TIME` by the destructuring default. -/
structure CacheConfig where
  models : Option (List ModelCacheRule)
  cacheTime : Option Nat
  excludeModels : List String
  excludeMethods : List String
deriving DecidableEq

/-- The effective cache-wide ttl `cacheOptions.ttl`: the `cacheTime`
argument after its destructuring default (`cacheTime = DEFAULT_CACHE_TIME`). -/
def globalTtl (cfg : CacheConfig) : Nat :=
  cfg.cacheTime.getD DEFAULT_CACHE_TIME

/-- `excludedCacheMethods` (extension.ts lines 40-42):
`defaultCacheMethods.filter((m) => excludeMethods.includes(m))`. -/
def excludedCacheMethods (cfg : CacheConfig) : List String :=
  defaultCacheMethods.filter (fun m => m ∈ cfg.excludeMethods)

/-- JavaScript `a || b` for an optional string `a` (`undefined` and the
empty string are falsy). -/
def jsOrStr (o : Option String) (dflt : String) : String :=
  match o with
  | some s => if s = "" then dflt else s
  | none => dflt

/-- JavaScript `a || b` for an optional number `a` (`undefined` and `0` are
falsy). -/
def jsOrNat (o : Option Nat) (dflt : Nat) : Nat :=
  match o with
  | some n => if n = 0 then dflt else n
  | none => dflt

/-- A cache function registered with `cache.define(model, options, fetch)`:
the closure state is exactly its reference tag key and its ttl; its fetch
part delegates verbatim to the executor supplied at call time. -/
structure Binding where
  tagKey : String
  ttl : Nat
deriving DecidableEq

/-- Registry lookup `cache[model]`: first entry whose key matches. -/
def lookupB : List (String × Binding) → String → Option Binding
  | [], _ => none
  | e :: rest, m => if e.1 = m then some e.2 else lookupB rest m

/-- Tag-store lookup: first entry stored under the given reference tag. -/
def lookupTag {V : Type} : List (String × V) → String → Option V
  | [], _ => none
  | e :: rest, t => if e.1 = t then some e.2 else lookupTag rest t

/-- `excludeMethods?.includes(op)` for a rule (undefined is falsy). -/
def ruleExcludes (r : ModelCacheRule) (opname : String) : Prop :=
  opname ∈ r.excludeMethods.getD []

instance (r : ModelCacheRule) (opname : String) : Decidable (ruleExcludes r opname) :=
  inferInstanceAs (Decidable (opname ∈ r.excludeMethods.getD []))

/-- One iteration of the `models?.forEach` loop (extension.ts lines 54-77):
define a cache function for the rule's model if none exists yet, the rule
matches the current operation's model, the model is not globally excluded
and the rule does not exclude the current operation.  The binding's tag key
is `cacheKey || notNullModel`, its ttl `cacheTime || cacheOptions.ttl`. -/
def ruleDefine (cfg : CacheConfig) (m opname : String)
    (c : List (String × Binding)) (r : ModelCacheRule) : List (String × Binding) :=
  if lookupB c r.model = none ∧ r.model = m ∧ m ∉ cfg.excludeModels ∧
      ¬ ruleExcludes r opname then
    c ++ [(r.model, ⟨jsOrStr r.cacheKey m, jsOrNat r.cacheTime (globalTtl cfg)⟩)]
  else c

/-- The whole `models?.forEach` loop. -/
def registerRules (cfg : CacheConfig) (m opname : String)
    (c : List (String × Binding)) : List (String × Binding) :=
  (cfg.models.getD []).foldl (ruleDefine cfg m opname) c

/-- The fall-through definition (extension.ts lines 79-105): find the first
rule for this model with a non-empty `excludeMethods`, and define a default
cache function (tag key = model name, no per-define ttl, hence the
cache-wide ttl) unless one exists, the model is excluded, or that rule
excludes the operation. -/
def fallThroughDefine (cfg : CacheConfig) (m opname : String)
    (c : List (String × Binding)) : List (String × Binding) :=
  let found := (cfg.models.getD []).find?
    (fun r => r.model == m && !(r.excludeMethods.getD []).isEmpty)
  if lookupB c m = none ∧ m ∉ cfg.excludeModels ∧
      opname ∉ (match found with
        | some r => r.excludeMethods.getD []
        | none => ([] : List String)) then
    c ++ [(m, ⟨m, globalTtl cfg⟩)]
  else c

/-- One intercepted invocation: the Prisma model, the operation name, the
deterministic serialization of the arguments (the dedupe collaborator's call
key), the outcome the real executor would produce for this invocation,
whether the cache layer would throw on this invocation, and which wildcard
invalidation patterns would throw. -/
structure Operation (V : Type) where
  model : String
  operation : String
  argsKey : String
  exec : Except String V
  cacheThrows : Bool
  invFail : String → Bool

/-- Mutable state threaded through the pipeline: the registry of defined
cache functions and the backing tag store (reference tag, cached value). -/
structure State (V : Type) where
  cache : List (String × Binding)
  store : List (String × V)

/-- Events an invocation initiates, in the synchronous initiation order of
the JavaScript code: the real executor's promise is created (`execStart`),
it settles (`execSettled`), a wildcard invalidation is initiated
(`invalidate pat`). -/
inductive Ev where
  | execStart : Ev
  | execSettled : Ev
  | invalidate : String → Ev
deriving DecidableEq

/-- Result of one intercepted invocation. -/
structure StepOut (V : Type) where
  cache : List (String × Binding)
  store : List (String × V)
  outcome : Except String V
  trace : List Ev

/-- The wildcard pattern the code builds for invalidation:
`` `*${model}~*` ``. -/
def mkPattern (m : String) : String := "*" ++ m ++ "~*"

/-- Does a stored reference tag match the wildcard pattern `*X~*`?
Glob semantics: the tag contains `X~`. -/
def patMatches (x tag : String) : Bool :=
  strContains tag (x ++ "~")

/-- The related model names invalidated after a mutation on `m`
(extension.ts lines 134-144): for every configured rule whose model equals
`m`, its `invalidateRelated` list (absent treated as empty). -/
def relatedModels (cfg : CacheConfig) (m : String) : List String :=
  ((cfg.models.getD []).filter (fun r => r.model == m)).foldr
    (fun r acc => r.invalidateRelated.getD [] ++ acc) []

/-- The `else` branch of the pipeline (extension.ts lines 126-146):
`result = fetchFromPrisma()` is NOT awaited, so the executor's promise is
created first and settles only after the rest of the branch has run; when
the operation is a mutation the primary wildcard invalidation runs and is
awaited (a failure there aborts the branch and becomes the invocation's
outcome), then every related invalidation is initiated together via
`Promise.all` (so each non-failing one still deletes even when another
fails, while any failure becomes the invocation's outcome). -/
def elseBranch {V : Type} (cfg : CacheConfig) (cache : List (String × Binding))
    (store : List (String × V)) (op : Operation V) : StepOut V :=
  if op.operation ∈ defaultMutationMethods then
    if op.invFail (mkPattern op.model) then
      ⟨cache, store, Except.error ("invalidation failed: " ++ mkPattern op.model),
        [Ev.execStart, Ev.invalidate (mkPattern op.model), Ev.execSettled]⟩
    else
      let store1 := store.filter (fun e => !(patMatches op.model e.1))
      let rels := relatedModels cfg op.model
      let store2 := store1.filter (fun e =>
        !(rels.any (fun rel => !(op.invFail (mkPattern rel)) && patMatches rel e.1)))
      let outcome := match rels.find? (fun rel => op.invFail (mkPattern rel)) with
        | some rel => Except.error ("invalidation failed: " ++ mkPattern rel)
        | none => op.exec
      ⟨cache, store2, outcome,
        [Ev.execStart, Ev.invalidate (mkPattern op.model)] ++
          rels.map (fun rel => Ev.invalidate (mkPattern rel)) ++ [Ev.execSettled]⟩
  else
    ⟨cache, store, op.exec, [Ev.execStart, Ev.execSettled]⟩

/-- The cached read path (extension.ts lines 118-125) together with the
dedupe collaborator's behaviour for one call of the defined cache function:
if the cache layer throws, the `catch` falls back to awaiting
`fetchFromPrisma()` directly; otherwise, with a non-zero ttl, a stored value
under the reference tag `` `${tagKey}~${key}` `` is returned as a hit, and a
miss awaits the executor and stores a successful result under that tag; a
zero ttl disables storing entirely (spec: "default 0 = no caching"). -/
def cachedPath {V : Type} (b : Binding) (cache : List (String × Binding))
    (store : List (String × V)) (op : Operation V) : StepOut V :=
  if op.cacheThrows then
    ⟨cache, store, op.exec, [Ev.execStart, Ev.execSettled]⟩
  else if b.ttl ≠ 0 then
    match lookupTag store (b.tagKey ++ "~" ++ op.argsKey) with
    | some v => ⟨cache, store, Except.ok v, []⟩
    | none =>
      match op.exec with
      | Except.ok v =>
          ⟨cache, store ++ [(b.tagKey ++ "~" ++ op.argsKey, v)], Except.ok v,
            [Ev.execStart, Ev.execSettled]⟩
      | Except.error e => ⟨cache, store, Except.error e, [Ev.execStart, Ev.execSettled]⟩
  else
    match op.exec with
    | Except.ok v => ⟨cache, store, Except.ok v, [Ev.execStart, Ev.execSettled]⟩
    | Except.error e => ⟨cache, store, Except.error e, [Ev.execStart, Ev.execSettled]⟩

/-- The registration phase of one pass (extension.ts lines 53-106): guarded
by the global excluded-methods check of line 53, run the `models?.forEach`
loop and then the fall-through definition. -/
def regCache {V : Type} (cfg : CacheConfig) (s : State V) (op : Operation V) :
    List (String × Binding) :=
  if op.operation ∈ excludedCacheMethods cfg then s.cache
  else fallThroughDefine cfg op.model op.operation
    (registerRules cfg op.model op.operation s.cache)

/-- One pass of `$allOperations` (extension.ts lines 47-149): registration
phase (guarded by the global excluded-methods check, line 53), then the
lookup `cache[notNullModel]`, then either the cached read path (model not
excluded, operation not globally excluded, not a mutation, and a cache
function exists) or the `else` branch. -/
def step {V : Type} (cfg : CacheConfig) (s : State V) (op : Operation V) : StepOut V :=
  match lookupB (regCache cfg s op) op.model with
  | some b =>
    if op.model ∉ cfg.excludeModels ∧ op.operation ∉ excludedCacheMethods cfg ∧
        op.operation ∉ defaultMutationMethods then
      cachedPath b (regCache cfg s op) s.store op
    else
      elseBranch cfg (regCache cfg s op) s.store op
  | none => elseBranch cfg (regCache cfg s op) s.store op

/-- The state after one step. -/
def stepState {V : Type} (cfg : CacheConfig) (s : State V) (op : Operation V) : State V :=
  ⟨(step cfg s op).cache, (step cfg s op).store⟩

/-- Run a whole sequence of intercepted invocations. -/
def runOps {V : Type} (cfg : CacheConfig) : State V → List (Operation V) → State V
  | s, [] => s
  | s, op :: rest => runOps cfg (stepState cfg s op) rest

/-! Concrete configurations, states and operations used to evaluate the
pipeline on explicit inputs. -/

/-- A configuration with one rule caching the `User` model for 300 seconds. -/
def cfgC2 : CacheConfig := ⟨some [⟨"User", some 300, none, none, none⟩], some 60, [], []⟩

/-- A state with one cached `User` tag. -/
def stC2 : State Nat := ⟨[], [("User~a", 5)]⟩

/-- A `create` mutation on `User` whose real executor fails. -/
def opC2 : Operation Nat := ⟨"User", "create", "k", Except.error "db down", false, fun _ => false⟩

/-- A configuration with an empty rule list and a 60-second default ttl. -/
def cfgC3 : CacheConfig := ⟨some [], some 60, [], []⟩

/-- An `update` mutation on `User` whose real executor succeeds. -/
def opC3 : Operation Nat := ⟨"User", "update", "k", Except.ok 1, false, fun _ => false⟩

/-- A configuration declaring `Post` as related to `User`. -/
def cfgC4 : CacheConfig := ⟨some [⟨"User", none, none, none, some ["Post"]⟩], some 60, [], []⟩

/-- A state with one cached `Post` tag. -/
def stC4 : State Nat := ⟨[], [("Post~p", 3)]⟩

/-- An `update` mutation on `User` whose primary wildcard deletion throws. -/
def opC4 : Operation Nat := ⟨"User", "update", "k", Except.ok 1, false, fun p => p == "*User~*"⟩

/-- A configuration declaring `Post` and `Tag` as related to `User`. -/
def cfgC4w : CacheConfig :=
  ⟨some [⟨"User", none, none, none, some ["Post", "Tag"]⟩], some 60, [], []⟩

/-- A state with one cached `Post` tag. -/
def stC4w : State Nat := ⟨[], [("Post~p", 3)]⟩

/-- A `delete` mutation on `User` whose `Tag` related wildcard deletion throws. -/
def opC4w : Operation Nat := ⟨"User", "delete", "k", Except.ok 1, false, fun p => p == "*Tag~*"⟩

/-- A configuration whose `User` rule excludes `findMany` at rule level. -/
def cfgC5 : CacheConfig := ⟨some [⟨"User", none, none, some ["findMany"], none⟩], some 60, [], []⟩

/-- A non-excluded `findFirst` read of `User`. -/
def opC5a : Operation Nat := ⟨"User", "findFirst", "a", Except.ok 1, false, fun _ => false⟩

/-- A `findMany` read of `User`, the operation excluded by the `User` rule. -/
def opC5b : Operation Nat := ⟨"User", "findMany", "b", Except.ok 2, false, fun _ => false⟩

/-- A configuration globally excluding the `Secret` model. -/
def cfgC5w : CacheConfig := ⟨some [], some 60, ["Secret"], []⟩

/-- A `findMany` read of the globally excluded `Secret` model. -/
def opC5w : Operation Nat := ⟨"Secret", "findMany", "k", Except.ok 1, false, fun _ => false⟩

/-- A configuration with one rule caching the `User` model for 300 seconds. -/
def cfgC6 : CacheConfig := ⟨some [⟨"User", some 300, none, none, none⟩], some 60, [], []⟩

/-- A `create` mutation on `User` (the very first operation, before any read). -/
def opC6 : Operation Nat := ⟨"User", "create", "k", Except.ok 1, false, fun _ => false⟩

/-- A configuration whose `User` rule carries a different ttl and tag key
than an already-installed binding. -/
def cfgC6w : CacheConfig := ⟨some [⟨"User", some 10, some "U2", none, none⟩], some 60, [], []⟩

/-- A state in which a binding for `User` with ttl 300 is already installed. -/
def stC6w : State Nat := ⟨[("User", ⟨"User", 300⟩)], []⟩

/-- A later read and a later write of `User`. -/
def opsC6w : List (Operation Nat) :=
  [⟨"User", "findMany", "k", Except.ok 5, false, fun _ => false⟩,
   ⟨"User", "update", "k2", Except.ok 6, false, fun _ => false⟩]

/-- A configuration with an empty rule list and a 60-second default ttl. -/
def cfgC1w : CacheConfig := ⟨some [], some 60, [], []⟩

/-- A `findMany` read whose cache layer throws but whose executor succeeds. -/
def opC1w : Operation Nat := ⟨"User", "findMany", "k1", Except.ok 7, true, fun _ => false⟩

/-- A configuration whose `Post` rule sets the empty string as `cacheKey`. -/
def cfgC7 : CacheConfig := ⟨some [⟨"Post", none, some "", none, none⟩], some 60, [], []⟩

/-- A `findMany` read of `Post`. -/
def opC7 : Operation Nat := ⟨"Post", "findMany", "a", Except.ok 3, false, fun _ => false⟩

/-- A configuration whose `Post` rule sets `cacheKey` to `Article`. -/
def cfgC7w : CacheConfig := ⟨some [⟨"Post", none, some "Article", none, none⟩], some 60, [], []⟩

/-- A `findMany` read of `Post`. -/
def opC7w : Operation Nat := ⟨"Post", "findMany", "a", Except.ok 3, false, fun _ => false⟩

/-- A configuration whose `User` rule sets a zero ttl override while the
global default ttl is 60. -/
def cfgC8 : CacheConfig := ⟨some [⟨"User", some 0, none, none, none⟩], some 60, [], []⟩

/-- A `findFirst` read of `User`. -/
def opC8 : Operation Nat := ⟨"User", "findFirst", "k", Except.ok 1, false, fun _ => false⟩

/-- A configuration whose `User` rule sets a 300-second ttl override. -/
def cfgC8w : CacheConfig := ⟨some [⟨"User", some 300, none, none, none⟩], some 60, [], []⟩

/-- A `findFirst` read of `User`. -/
def opC8w : Operation Nat := ⟨"User", "findFirst", "k", Except.ok 1, false, fun _ => false⟩

/-- A configuration whose `User` rule stores under the tag key `SuperUser`
(a cache key that contains the model name). -/
def cfgC9 : CacheConfig := ⟨some [⟨"User", none, some "SuperUser", none, none⟩], some 60, [], []⟩

/-- A state with one tag stored under the `SuperUser` cache key. -/
def stC9 : State Nat := ⟨[], [("SuperUser~k", 9)]⟩

/-- An `update` mutation on `User` with no invalidation failures. -/
def opC9 : Operation Nat := ⟨"User", "update", "k", Except.ok 1, false, fun _ => false⟩

/-- A configuration whose `User` rule stores under cache key `Article` and
declares `Profile` as related. -/
def cfgC9w : CacheConfig :=
  ⟨some [⟨"User", none, some "Article", none, some ["Profile"]⟩], some 60, [], []⟩

/-- A state with one tag stored under the `Article` cache key. -/
def stC9w : State Nat := ⟨[], [("Article~a", 1)]⟩

/-- A `deleteMany` mutation on `User` with no invalidation failures. -/
def opC9w : Operation Nat := ⟨"User", "deleteMany", "k", Except.ok 1, false, fun _ => false⟩

section Lemmas

variable {V : Type}

theorem lookupB_append_of_some {c : List (String × Binding)} {m : String} {b : Binding}
    (h : lookupB c m = some b) (d : List (String × Binding)) :
    lookupB (c ++ d) m = some b := by
  induction c with
  | nil => simp [lookupB] at h
  | cons e rest ih =>
    by_cases he : e.1 = m
    · simp only [lookupB, List.cons_append, if_pos he] at h ⊢
      exact h
    · simp only [lookupB, List.cons_append, if_neg he] at h ⊢
      exact ih h

theorem lookupB_append_of_none {c : List (String × Binding)} {m : String}
    (h : lookupB c m = none) (d : List (String × Binding)) :
    lookupB (c ++ d) m = lookupB d m := by
  induction c with
  | nil => simp
  | cons e rest ih =>
    by_cases he : e.1 = m
    · simp only [lookupB, if_pos he] at h
      exact absurd h (by simp)
    · simp only [lookupB, List.cons_append, if_neg he] at h ⊢
      exact ih h

theorem lookupB_single_eq (k : String) (b : Binding) : lookupB [(k, b)] k = some b := by
  simp [lookupB]

theorem lookupB_single_ne {k m : String} (h : k ≠ m) (b : Binding) :
    lookupB [(k, b)] m = none := by
  simp [lookupB, h]

theorem ruleDefine_lookupB_of_some {cfg : CacheConfig} {m opname : String}
    {c : List (String × Binding)} {r : ModelCacheRule} {T : String} {b : Binding}
    (h : lookupB c T = some b) :
    lookupB (ruleDefine cfg m opname c r) T = some b := by
  unfold ruleDefine
  split
  · exact lookupB_append_of_some h _
  · exact h

theorem registerRules_lookupB_of_some {cfg : CacheConfig} {m opname : String}
    {T : String} {b : Binding} :
    ∀ (rules : List ModelCacheRule) (c : List (String × Binding)),
      lookupB c T = some b →
      lookupB (rules.foldl (ruleDefine cfg m opname) c) T = some b := by
  intro rules
  induction rules with
  | nil => intro c h; exact h
  | cons r rest ih =>
    intro c h
    exact ih _ (ruleDefine_lookupB_of_some h)

theorem fallThroughDefine_lookupB_of_some {cfg : CacheConfig} {m opname : String}
    {c : List (String × Binding)} {T : String} {b : Binding}
    (h : lookupB c T = some b) :
    lookupB (fallThroughDefine cfg m opname c) T = some b := by
  simp only [fallThroughDefine]
  split
  · exact lookupB_append_of_some h _
  · exact h

theorem regCache_lookupB_of_some {cfg : CacheConfig} {s : State V} {op : Operation V}
    {T : String} {b : Binding} (h : lookupB s.cache T = some b) :
    lookupB (regCache cfg s op) T = some b := by
  unfold regCache
  split
  · exact h
  · exact fallThroughDefine_lookupB_of_some
      (registerRules_lookupB_of_some (cfg.models.getD []) s.cache h)

theorem cachedPath_cache (b : Binding) (c : List (String × Binding))
    (st : List (String × V)) (op : Operation V) :
    (cachedPath b c st op).cache = c := by
  unfold cachedPath
  repeat (first | rfl | split)

theorem elseBranch_cache (cfg : CacheConfig) (c : List (String × Binding))
    (st : List (String × V)) (op : Operation V) :
    (elseBranch cfg c st op).cache = c := by
  unfold elseBranch
  repeat (first | rfl | split)

theorem step_cache (cfg : CacheConfig) (s : State V) (op : Operation V) :
    (step cfg s op).cache = regCache cfg s op := by
  unfold step
  split
  · split
    · exact cachedPath_cache ..
    · exact elseBranch_cache ..
  · exact elseBranch_cache ..

theorem elseBranch_store_subset (cfg : CacheConfig) (c : List (String × Binding))
    (st : List (String × V)) (op : Operation V) :
    ∀ x ∈ (elseBranch cfg c st op).store, x ∈ st := by
  unfold elseBranch
  split
  · split
    · intro x hx; exact hx
    · intro x hx
      simp only [List.mem_filter] at hx
      exact hx.1.1
  · intro x hx; exact hx

theorem elseBranch_of_not_mutation (cfg : CacheConfig) (c : List (String × Binding))
    (st : List (String × V)) (op : Operation V)
    (h : op.operation ∉ defaultMutationMethods) :
    elseBranch cfg c st op = ⟨c, st, op.exec, [Ev.execStart, Ev.execSettled]⟩ := by
  unfold elseBranch
  rw [if_neg h]

theorem excludedCacheMethods_subset {cfg : CacheConfig} {opname : String}
    (h : opname ∈ excludedCacheMethods cfg) : opname ∈ defaultCacheMethods := by
  simpa [excludedCacheMethods, List.mem_filter] using (List.mem_filter.mp h).1

theorem cacheMethods_disjoint :
    ∀ x ∈ defaultCacheMethods, x ∉ defaultMutationMethods := by decide

theorem excludedCacheMethods_not_mutation {cfg : CacheConfig} {opname : String}
    (h : opname ∈ excludedCacheMethods cfg) : opname ∉ defaultMutationMethods :=
  cacheMethods_disjoint _ (excludedCacheMethods_subset h)

theorem step_mutation_eq_elseBranch {cfg : CacheConfig} {s : State V} {op : Operation V}
    (hmut : op.operation ∈ defaultMutationMethods) :
    step cfg s op = elseBranch cfg (regCache cfg s op) s.store op := by
  unfold step
  split
  · rw [if_neg (fun h => h.2.2 hmut)]
  · rfl

theorem find?_of_exists {α : Type} (p : α → Bool) :
    ∀ (l : List α), (∃ x ∈ l, p x = true) → ∃ y, l.find? p = some y := by
  intro l
  induction l with
  | nil => rintro ⟨x, hx, _⟩; cases hx
  | cons a t ih =>
    rintro ⟨x, hx, hpx⟩
    by_cases hpa : p a = true
    · exact ⟨a, by simp [List.find?_cons, hpa]⟩
    · cases hx with
      | head => exact absurd hpx hpa
      | tail _ hxt =>
        obtain ⟨y, hy⟩ := ih ⟨x, hxt, hpx⟩
        exact ⟨y, by simp [List.find?_cons, hpa, hy]⟩

theorem lookupB_append_single_ne_none {c : List (String × Binding)} {T k : String}
    (hk : k ≠ T) (b : Binding) (h : lookupB c T = none) :
    lookupB (c ++ [(k, b)]) T = none := by
  rw [lookupB_append_of_none h, lookupB_single_ne hk]

theorem ruleDefine_lookupB_none_of_excluded {cfg : CacheConfig} {m opname T : String}
    (hT : T ∈ cfg.excludeModels) {c : List (String × Binding)} {r : ModelCacheRule}
    (h : lookupB c T = none) :
    lookupB (ruleDefine cfg m opname c r) T = none := by
  unfold ruleDefine
  split
  next hc =>
    have hk : r.model ≠ T := by
      intro he
      apply hc.2.2.1
      rw [← hc.2.1, he]
      exact hT
    exact lookupB_append_single_ne_none hk _ h
  next => exact h

theorem registerRules_lookupB_none_of_excluded {cfg : CacheConfig} {m opname T : String}
    (hT : T ∈ cfg.excludeModels) :
    ∀ (rules : List ModelCacheRule) (c : List (String × Binding)),
      lookupB c T = none →
      lookupB (rules.foldl (ruleDefine cfg m opname) c) T = none := by
  intro rules
  induction rules with
  | nil => intro c h; exact h
  | cons r rest ih =>
    intro c h
    exact ih _ (ruleDefine_lookupB_none_of_excluded hT h)

theorem fallThroughDefine_lookupB_none_of_excluded {cfg : CacheConfig} {m opname T : String}
    (hT : T ∈ cfg.excludeModels) {c : List (String × Binding)}
    (h : lookupB c T = none) :
    lookupB (fallThroughDefine cfg m opname c) T = none := by
  simp only [fallThroughDefine]
  split
  next hc =>
    have hk : m ≠ T := fun he => hc.2.1 (he ▸ hT)
    exact lookupB_append_single_ne_none hk _ h
  next => exact h

theorem regCache_lookupB_none_of_excluded {cfg : CacheConfig} {s : State V}
    {op : Operation V} {T : String}
    (hT : T ∈ cfg.excludeModels) (h : lookupB s.cache T = none) :
    lookupB (regCache cfg s op) T = none := by
  unfold regCache
  split
  · exact h
  · exact fallThroughDefine_lookupB_none_of_excluded hT
      (registerRules_lookupB_none_of_excluded hT _ _ h)

theorem step_lookupB_none_of_excluded {cfg : CacheConfig} {s : State V}
    {op : Operation V} {T : String}
    (hT : T ∈ cfg.excludeModels) (h : lookupB s.cache T = none) :
    lookupB (step cfg s op).cache T = none := by
  rw [step_cache]
  exact regCache_lookupB_none_of_excluded hT h

theorem runOps_lookupB_none_of_excluded {cfg : CacheConfig} {T : String}
    (hT : T ∈ cfg.excludeModels) :
    ∀ (ops : List (Operation V)) (s : State V), lookupB s.cache T = none →
      lookupB (runOps cfg s ops).cache T = none := by
  intro ops
  induction ops with
  | nil => intro s h; exact h
  | cons op rest ih =>
    intro s h
    exact ih _ (step_lookupB_none_of_excluded hT h)

theorem registerRules_eq_of_all_excluded {cfg : CacheConfig} {m opname : String} :
    ∀ (rules : List ModelCacheRule) (c : List (String × Binding)),
      (∀ r ∈ rules, r.model = m → opname ∈ r.excludeMethods.getD []) →
      rules.foldl (ruleDefine cfg m opname) c = c := by
  intro rules
  induction rules with
  | nil => intro c _; rfl
  | cons r rest ih =>
    intro c hall
    have hr : ruleDefine cfg m opname c r = c := by
      unfold ruleDefine
      rw [if_neg]
      rintro ⟨-, hmodel, -, hnex⟩
      exact hnex (hall r (List.mem_cons_self ..) hmodel)
    rw [List.foldl_cons, hr]
    exact ih c (fun r' hr' hm' => hall r' (List.mem_cons_of_mem _ hr') hm')

theorem fallThroughDefine_eq_of_excluded {cfg : CacheConfig} {m opname : String}
    {c : List (String × Binding)}
    (hex : ∃ r ∈ cfg.models.getD [], r.model = m)
    (hall : ∀ r ∈ cfg.models.getD [], r.model = m → opname ∈ r.excludeMethods.getD []) :
    fallThroughDefine cfg m opname c = c := by
  simp only [fallThroughDefine]
  rw [if_neg]
  rintro ⟨-, -, hnotin⟩
  obtain ⟨r0, hr0mem, hr0m⟩ := hex
  have hne : r0.excludeMethods.getD [] ≠ [] := by
    intro hnil
    have hmem := hall r0 hr0mem hr0m
    rw [hnil] at hmem
    cases hmem
  have hp : (fun r => r.model == m && !(r.excludeMethods.getD []).isEmpty) r0 = true := by
    cases hl : r0.excludeMethods.getD [] with
    | nil => exact absurd hl hne
    | cons a t => simp [hr0m, hl]
  obtain ⟨r1, hr1⟩ :=
    find?_of_exists (fun r => r.model == m && !(r.excludeMethods.getD []).isEmpty)
      (cfg.models.getD []) ⟨r0, hr0mem, hp⟩
  rw [hr1] at hnotin
  have hr1p := List.find?_some hr1
  have hr1mem := List.mem_of_find?_eq_some hr1
  simp only [Bool.and_eq_true, beq_iff_eq] at hr1p
  exact hnotin (hall r1 hr1mem hr1p.1)

theorem cachedPath_of_cacheThrows {b : Binding} {c : List (String × Binding)}
    {st : List (String × V)} {op : Operation V} (h : op.cacheThrows = true) :
    cachedPath b c st op = ⟨c, st, op.exec, [Ev.execStart, Ev.execSettled]⟩ := by
  unfold cachedPath
  rw [if_pos h]

theorem registerRules_eq_of_all_excluded' {cfg : CacheConfig} {m opname : String}
    {c : List (String × Binding)}
    (hall : ∀ r ∈ cfg.models.getD [], r.model = m → opname ∈ r.excludeMethods.getD []) :
    registerRules cfg m opname c = c :=
  registerRules_eq_of_all_excluded (cfg.models.getD []) c hall

/-- With exactly one configured rule, matching the operation's model and not
excluding it, the registration phase installs exactly the rule's binding. -/
theorem regCache_single_rule {cfg : CacheConfig} {r : ModelCacheRule} {s : State V}
    {op : Operation V}
    (hrules : cfg.models = some [r]) (hmatch : r.model = op.model)
    (hnexM : op.model ∉ cfg.excludeModels)
    (hnexOp : op.operation ∉ excludedCacheMethods cfg)
    (hnexR : op.operation ∉ r.excludeMethods.getD [])
    (hfresh : lookupB s.cache op.model = none) :
    regCache cfg s op = s.cache ++
      [(r.model, ⟨jsOrStr r.cacheKey op.model, jsOrNat r.cacheTime (globalTtl cfg)⟩)] := by
  have h1 : registerRules cfg op.model op.operation s.cache = s.cache ++
      [(r.model, ⟨jsOrStr r.cacheKey op.model, jsOrNat r.cacheTime (globalTtl cfg)⟩)] := by
    unfold registerRules
    rw [hrules]
    simp only [Option.getD_some, List.foldl_cons, List.foldl_nil]
    unfold ruleDefine
    rw [if_pos ⟨by rw [hmatch]; exact hfresh, hmatch, hnexM, hnexR⟩]
  have h2 : lookupB (registerRules cfg op.model op.operation s.cache) op.model =
      some ⟨jsOrStr r.cacheKey op.model, jsOrNat r.cacheTime (globalTtl cfg)⟩ := by
    rw [h1, lookupB_append_of_none hfresh, hmatch]
    exact lookupB_single_eq ..
  unfold regCache
  rw [if_neg hnexOp]
  simp only [fallThroughDefine]
  rw [if_neg]
  · exact h1
  · rintro ⟨hnone, -, -⟩
    rw [h2] at hnone
    cases hnone

/-- Lookup of the binding installed by `regCache_single_rule`. -/
theorem regCache_single_rule_lookup {cfg : CacheConfig} {r : ModelCacheRule} {s : State V}
    {op : Operation V}
    (hrules : cfg.models = some [r]) (hmatch : r.model = op.model)
    (hnexM : op.model ∉ cfg.excludeModels)
    (hnexOp : op.operation ∉ excludedCacheMethods cfg)
    (hnexR : op.operation ∉ r.excludeMethods.getD [])
    (hfresh : lookupB s.cache op.model = none) :
    lookupB (regCache cfg s op) op.model =
      some ⟨jsOrStr r.cacheKey op.model, jsOrNat r.cacheTime (globalTtl cfg)⟩ := by
  rw [regCache_single_rule hrules hmatch hnexM hnexOp hnexR hfresh,
    lookupB_append_of_none hfresh, hmatch]
  exact lookupB_single_eq ..

/-- When the gate of extension.ts lines 112-117 passes, the step is the
cached read path. -/
theorem step_read_eq_cachedPath {cfg : CacheConfig} {s : State V} {op : Operation V}
    {b : Binding} (hl : lookupB (regCache cfg s op) op.model = some b)
    (h1 : op.model ∉ cfg.excludeModels) (h2 : op.operation ∉ excludedCacheMethods cfg)
    (h3 : op.operation ∉ defaultMutationMethods) :
    step cfg s op = cachedPath b (regCache cfg s op) s.store op := by
  unfold step
  rw [hl]
  exact if_pos ⟨h1, h2, h3⟩

theorem any_congr_mem {α : Type} {p q : α → Bool} :
    ∀ {l : List α}, (∀ a ∈ l, p a = q a) → l.any p = l.any q := by
  intro l
  induction l with
  | nil => intro _; rfl
  | cons a t ih =>
    intro h
    simp only [List.any_cons, h a (List.mem_cons_self ..),
      ih (fun b hb => h b (List.mem_cons_of_mem _ hb))]

end Lemmas

/-- C1: For every read operation (an operation that is not one of the
mutating kinds) on a non-excluded entity type whose cache layer throws, the
pipeline catches the cache error and the invocation's outcome is exactly the
real executor's outcome — the cache-layer error never propagates, and only a
failure of the real executor itself propagates — and the tag store is left
unchanged. -/
theorem C1_read_cache_error_falls_back {V : Type} (cfg : CacheConfig) (s : State V)
    (op : Operation V) (hread : op.operation ∉ defaultMutationMethods)
    (_hmodel : op.model ∉ cfg.excludeModels) (hthrow : op.cacheThrows = true) :
    (step cfg s op).outcome = op.exec ∧ (step cfg s op).store = s.store := by
  unfold step
  split
  · split
    · rw [cachedPath_of_cacheThrows hthrow]
      exact ⟨rfl, rfl⟩
    · rw [elseBranch_of_not_mutation _ _ _ _ hread]
      exact ⟨rfl, rfl⟩
  · rw [elseBranch_of_not_mutation _ _ _ _ hread]
    exact ⟨rfl, rfl⟩

/-- Witness for C1: a concrete `findMany` on `User` whose cache layer
throws still yields the executor's value 7. -/
theorem C1_read_cache_error_falls_back_witness :
    (step cfgC1w (⟨[], []⟩ : State Nat) opC1w).outcome = Except.ok 7 :=
  (C1_read_cache_error_falls_back cfgC1w ⟨[], []⟩ opC1w (by decide) (by decide) rfl).1

/-- C2 (code bug): the claim says a write whose real executor fails
propagates the failure AND suppresses invalidation entirely.  In the code,
`result = fetchFromPrisma()` on line 128 is not awaited, so
`cache.invalidateAll` runs regardless of the write's outcome (contradicting
the comment on line 130, "If we successfully executed the Mutation we clear
and invalidate the cache").  Concretely: a `create` on `User` whose executor
rejects still propagates the failure, but the pre-existing `User~a` tag has
been wiped — invalidation was not suppressed. -/
theorem C2_failed_write_still_invalidates :
    (step cfgC2 stC2 opC2).outcome = Except.error "db down" ∧
      (step cfgC2 stC2 opC2).store = [] := by
  constructor <;> rfl

/-- C3 (code bug): the claim says invalidation is never initiated before
the write has finished.  Because line 128 does not await the executor's
promise, the synchronous initiation order of a successful `update` on
`User` is: executor promise created, wildcard invalidation `*User~*`
initiated, and only then does the executor's promise settle — invalidation
is initiated before the write completes. -/
theorem C3_invalidation_initiated_before_write_settles :
    (step cfgC3 (⟨[], []⟩ : State Nat) opC3).trace
      = [Ev.execStart, Ev.invalidate "*User~*", Ev.execSettled] := by
  rfl

/-- C6 counterexample: the claim says the binding for an entity type is
created on the first READ of that type.  In the code the registration phase
(lines 53-106) also runs for mutations, because mutating operation names are
never in `excludedCacheMethods`: after a single `create` on `User` — no read
has ever been issued — the binding for `User` already exists. -/
theorem C6_counterexample :
    lookupB (step cfgC6 (⟨[], []⟩ : State Nat) opC6).cache "User" = some ⟨"User", 300⟩ := by
  rfl

/-- C6 (amended): the binding for an entity type is created on the first
operation on it (read or write) that passes the registration checks; once a
binding exists it is reused unchanged for every subsequent operation —
registration short-circuits on the existence check, no second binding is
created, and the binding's ttl and tag key are never updated even if the
configuration rule differs from the installed binding. -/
theorem C6_binding_first_registration_wins {V : Type} (cfg : CacheConfig) (s : State V)
    (ops : List (Operation V)) (T : String) (b : Binding)
    (h : lookupB s.cache T = some b) :
    lookupB (runOps cfg s ops).cache T = some b := by
  induction ops generalizing s with
  | nil => exact h
  | cons op rest ih =>
    simp only [runOps]
    refine ih (stepState cfg s op) ?_
    show lookupB (step cfg s op).cache T = some b
    rw [step_cache]
    exact regCache_lookupB_of_some h

/-- Witness for C6: an installed `User` binding with ttl 300 survives a
read and a write unchanged, although the configured rule carries ttl 10 and
tag key `U2`. -/
theorem C6_binding_first_registration_wins_witness :
    lookupB (runOps cfgC6w stC6w opsC6w).cache "User" = some ⟨"User", 300⟩ :=
  C6_binding_first_registration_wins cfgC6w stC6w opsC6w "User" ⟨"User", 300⟩ rfl

/-- C4 counterexample: the claim says a wildcard-delete failure during
fan-out is logged, does not surface to the caller, and does not block the
remaining invalidations.  In the code (lines 131-145) nothing catches an
invalidation error: when the primary `*User~*` deletion throws, the error
becomes the invocation's outcome (it surfaces) and the related `Post`
deletion is never attempted (its tag survives). -/
theorem C4_counterexample :
    (step cfgC4 stC4 opC4).outcome = Except.error "invalidation failed: *User~*" ∧
      ("Post~p", (3 : Nat)) ∈ (step cfgC4 stC4 opC4).store := by
  constructor
  · rfl
  · decide

/-- C4 (amended): after a write, a primary wildcard-delete failure leaves
the store untouched (no related deletion is attempted) and propagates an
error to the caller; when the primary deletion succeeds, the related
deletions are all initiated together, so every non-failing related type's
deletion is applied even when another related deletion throws, but any
related-deletion failure still propagates an error to the caller. -/
theorem C4_invalidation_failure_semantics {V : Type} (cfg : CacheConfig) (s : State V)
    (op : Operation V) (hmut : op.operation ∈ defaultMutationMethods) :
    (op.invFail (mkPattern op.model) = true →
      (step cfg s op).store = s.store ∧ ∃ e, (step cfg s op).outcome = Except.error e) ∧
    (op.invFail (mkPattern op.model) = false →
      (∀ x ∈ s.store, ∀ rel ∈ relatedModels cfg op.model,
          op.invFail (mkPattern rel) = false → patMatches rel x.1 = true →
          x ∉ (step cfg s op).store) ∧
      ((∃ rel ∈ relatedModels cfg op.model, op.invFail (mkPattern rel) = true) →
        ∃ e, (step cfg s op).outcome = Except.error e)) := by
  rw [step_mutation_eq_elseBranch hmut]
  unfold elseBranch
  rw [if_pos hmut]
  constructor
  · intro hfail
    rw [if_pos hfail]
    exact ⟨rfl, _, rfl⟩
  · intro hok
    rw [if_neg (by simp [hok])]
    dsimp only
    constructor
    · intro x hx rel hrel hrelok hmatch hmem
      simp only [List.mem_filter] at hmem
      have h2 := hmem.2
      rw [Bool.not_eq_true', List.any_eq_false] at h2
      exact (h2 rel hrel) (by simp [hrelok, hmatch])
    · rintro ⟨rel, hrel, hfailrel⟩
      obtain ⟨y, hy⟩ := find?_of_exists (fun rel => op.invFail (mkPattern rel))
        (relatedModels cfg op.model) ⟨rel, hrel, hfailrel⟩
      rw [hy]
      exact ⟨_, rfl⟩

/-- Witness for C4: with related types `Post` and `Tag`, a `delete` on
`User` whose `*Tag~*` deletion throws still deletes the `Post~p` tag (the
non-failing related deletion is applied) while an error propagates. -/
theorem C4_invalidation_failure_semantics_witness :
    ("Post~p", (3 : Nat)) ∉ (step cfgC4w stC4w opC4w).store ∧
      ∃ e, (step cfgC4w stC4w opC4w).outcome = Except.error e := by
  have h := (C4_invalidation_failure_semantics cfgC4w stC4w opC4w (by decide)).2 (by decide)
  exact ⟨h.1 ("Post~p", 3) (by decide) "Post" (by decide) (by decide) (by decide),
    h.2 ⟨"Tag", by decide, by decide⟩⟩

/-- C5 counterexample: the claim says an operation in an entity type's
rule-level exclusion set never gets a tag, in any order of reads.  The
rule-level exclusion is only consulted while defining the cache function
(lines 60, 90), not at call time (lines 112-117): with a `User` rule
excluding `findMany`, a first `findFirst` read installs the binding, and a
subsequent `findMany` read is then served through the cache and stores the
tag `User~b` — a tag for the excluded (`User`, `findMany`) pair. -/
theorem C5_counterexample :
    ("User~b", (2 : Nat)) ∈ (runOps cfgC5 ⟨[], []⟩ [opC5a, opC5b]).store := by
  decide

/-- C5 (amended): a globally excluded entity type never has a cache
function created (over any run) and an operation on it never adds a tag; an
operation in the runtime global exclusion set (an `excludeMethods` entry
that is also a default cache method) leaves the store unchanged; and an
operation excluded by every configured rule for its entity type adds no tag
and creates no binding as long as no binding for that entity type exists
yet (once a binding exists, the rule-level exclusion is not consulted at
call time). -/
theorem C5_exclusion_guarantees {V : Type} (cfg : CacheConfig) (T : String) (s : State V)
    (ops : List (Operation V)) (op : Operation V) :
    (T ∈ cfg.excludeModels → lookupB s.cache T = none →
      lookupB (runOps cfg s ops).cache T = none) ∧
    (op.model ∈ cfg.excludeModels → ∀ x ∈ (step cfg s op).store, x ∈ s.store) ∧
    (op.operation ∈ excludedCacheMethods cfg → (step cfg s op).store = s.store) ∧
    ((∃ r ∈ cfg.models.getD [], r.model = op.model) →
      (∀ r ∈ cfg.models.getD [], r.model = op.model →
        op.operation ∈ r.excludeMethods.getD []) →
      lookupB s.cache op.model = none →
      lookupB (step cfg s op).cache op.model = none ∧
        ∀ x ∈ (step cfg s op).store, x ∈ s.store) := by
  refine ⟨fun hT h => runOps_lookupB_none_of_excluded hT ops s h, ?_, ?_, ?_⟩
  · intro hM
    unfold step
    split
    · rw [if_neg (fun hc => hc.1 hM)]
      exact elseBranch_store_subset cfg _ _ _
    · exact elseBranch_store_subset cfg _ _ _
  · intro hOp
    unfold step
    split
    · rw [if_neg (fun hc => hc.2.1 hOp)]
      rw [elseBranch_of_not_mutation _ _ _ _ (excludedCacheMethods_not_mutation hOp)]
    · rw [elseBranch_of_not_mutation _ _ _ _ (excludedCacheMethods_not_mutation hOp)]
  · intro hex hall hnone
    have hreg : regCache cfg s op = s.cache := by
      unfold regCache
      split
      · rfl
      · rw [registerRules_eq_of_all_excluded' hall, fallThroughDefine_eq_of_excluded hex hall]
    have hl : lookupB (regCache cfg s op) op.model = none := by
      rw [hreg]; exact hnone
    constructor
    · rw [step_cache, hreg]; exact hnone
    · unfold step
      rw [hl]
      exact elseBranch_store_subset cfg _ _ _

/-- Witness for C5: a read of the globally excluded `Secret` model never
creates a binding for it. -/
theorem C5_exclusion_guarantees_witness :
    lookupB (runOps cfgC5w (⟨[], []⟩ : State Nat) [opC5w]).cache "Secret" = none :=
  (C5_exclusion_guarantees cfgC5w "Secret" ⟨[], []⟩ [opC5w] opC5w).1 (by decide) rfl

/-- C7 counterexample: the claim says the stored tag is
`<cacheKey>~<callKey>` whenever the rule's `cacheKey` override is present.
With the present-but-empty override `cacheKey: ""`, JavaScript
`cacheKey || model` is falsy and falls back to the model name: the stored
tag is `Post~a`, not `~a`. -/
theorem C7_counterexample :
    (step cfgC7 (⟨[], []⟩ : State Nat) opC7).store = [("Post~a", 3)] := by
  rfl

/-- C7 (amended): for a cached read miss served through a binding created
from the entity type's configured rule, the stored tag is
`<tagKey>~<callKey>` where the tag key is the rule's `cacheKey` override
when present and non-empty (an empty-string override is treated as absent)
and the entity type name otherwise, and the call key is the deterministic
serialization of the read's arguments. -/
theorem C7_tag_shape {V : Type} (cfg : CacheConfig) (r : ModelCacheRule) (s : State V)
    (op : Operation V) (v : V)
    (hrules : cfg.models = some [r]) (hmatch : r.model = op.model)
    (hnexM : op.model ∉ cfg.excludeModels)
    (hnexOp : op.operation ∉ excludedCacheMethods cfg)
    (hnexR : op.operation ∉ r.excludeMethods.getD [])
    (hread : op.operation ∉ defaultMutationMethods)
    (hnothrow : op.cacheThrows = false)
    (hfresh : lookupB s.cache op.model = none)
    (httl : jsOrNat r.cacheTime (globalTtl cfg) ≠ 0)
    (hmiss : lookupTag s.store (jsOrStr r.cacheKey op.model ++ "~" ++ op.argsKey) = none)
    (hexec : op.exec = Except.ok v) :
    (step cfg s op).store = s.store ++
      [(((match r.cacheKey with
          | some k => if k = "" then op.model else k
          | none => op.model) : String) ++ "~" ++ op.argsKey, v)] := by
  have hl := regCache_single_rule_lookup hrules hmatch hnexM hnexOp hnexR hfresh
  rw [step_read_eq_cachedPath hl hnexM hnexOp hread]
  unfold cachedPath
  rw [if_neg (by simp [hnothrow])]
  dsimp only
  rw [if_pos httl, hmiss, hexec]
  rfl

/-- Witness for C7: with `cacheKey: "Article"` on the `Post` rule, a miss
stores the tag `Article~a`. -/
theorem C7_tag_shape_witness :
    (step cfgC7w (⟨[], []⟩ : State Nat) opC7w).store = [("Article~a", 3)] :=
  (C7_tag_shape cfgC7w ⟨"Post", none, some "Article", none, none⟩ ⟨[], []⟩ opC7w 3
    rfl rfl (by decide) (by decide) (by decide) (by decide) rfl rfl (by decide) rfl
    rfl).trans (by rfl)

/-- C8 counterexample: the claim says the binding's ttl is the rule's ttl
override whenever the rule provides one.  With the provided override
`cacheTime: 0` and a global default of 60, JavaScript
`cacheTime || cacheOptions.ttl` is falsy on 0 and the binding gets ttl 60,
not the provided 0. -/
theorem C8_counterexample :
    lookupB (step cfgC8 (⟨[], []⟩ : State Nat) opC8).cache "User" = some ⟨"User", 60⟩ := by
  rfl

/-- C8 (amended): a binding created from the entity type's configured rule
has ttl equal to the rule's override when it is non-zero, and the global
default `cacheTime` otherwise (a zero override is treated as absent);
the global default itself, when not supplied at construction, is 0. -/
theorem C8_binding_ttl {V : Type} (cfg : CacheConfig) (r : ModelCacheRule) (s : State V)
    (op : Operation V)
    (hrules : cfg.models = some [r]) (hmatch : r.model = op.model)
    (hnexM : op.model ∉ cfg.excludeModels)
    (hnexOp : op.operation ∉ excludedCacheMethods cfg)
    (hnexR : op.operation ∉ r.excludeMethods.getD [])
    (hfresh : lookupB s.cache op.model = none) :
    lookupB (step cfg s op).cache op.model =
      some ⟨jsOrStr r.cacheKey op.model,
        ((match r.cacheTime with
          | some t => if t = 0 then globalTtl cfg else t
          | none => globalTtl cfg) : Nat)⟩ ∧
      (cfg.cacheTime = none → globalTtl cfg = 0) := by
  constructor
  · rw [step_cache]
    exact regCache_single_rule_lookup hrules hmatch hnexM hnexOp hnexR hfresh
  · intro h
    unfold globalTtl
    rw [h]
    rfl

/-- Witness for C8: a `User` rule with ttl override 300 and global default
60 creates a binding with ttl 300. -/
theorem C8_binding_ttl_witness :
    lookupB (step cfgC8w (⟨[], []⟩ : State Nat) opC8w).cache "User" = some ⟨"User", 300⟩ :=
  ((C8_binding_ttl cfgC8w ⟨"User", some 300, none, none, none⟩ ⟨[], []⟩ opC8w
    rfl rfl (by decide) (by decide) (by decide) rfl).1).trans (by rfl)

/-- C9 counterexample: the claim says entries stored under a `cacheKey`
different from the entity type are not removed by the primary invalidation.
The wildcard `*User~*` matches by substring: the entry stored under the
`SuperUser` cache key (`SuperUser~k`) contains `User~` and IS removed by a
write on `User`, though `SuperUser ≠ User` and no related type is
declared. -/
theorem C9_counterexample :
    (step cfgC9 stC9 opC9).store = [] := by
  rfl

/-- C9 (amended): after a write on entity type T with no invalidation
failures, the surviving store is exactly the entries matching neither the
primary pattern — always built from the entity type name, never from the
rule's `cacheKey` override — nor a declared related type's pattern; hence an
entry stored under `<cacheKey>~<callKey>` survives the write provided the
substring `<T>~` does not occur in it and no related type's `<rel>~` occurs
in it. -/
theorem C9_primary_invalidation_uses_model_name {V : Type} (cfg : CacheConfig)
    (s : State V) (op : Operation V)
    (hmut : op.operation ∈ defaultMutationMethods)
    (hpriok : op.invFail (mkPattern op.model) = false)
    (hrelok : ∀ rel ∈ relatedModels cfg op.model, op.invFail (mkPattern rel) = false) :
    (step cfg s op).store = s.store.filter (fun x =>
      !(patMatches op.model x.1) &&
        !((relatedModels cfg op.model).any (fun rel => patMatches rel x.1))) ∧
    ∀ x ∈ s.store, patMatches op.model x.1 = false →
      (∀ rel ∈ relatedModels cfg op.model, patMatches rel x.1 = false) →
      x ∈ (step cfg s op).store := by
  have hstore : (step cfg s op).store = s.store.filter (fun x =>
      !(patMatches op.model x.1) &&
        !((relatedModels cfg op.model).any (fun rel => patMatches rel x.1))) := by
    rw [step_mutation_eq_elseBranch hmut]
    unfold elseBranch
    rw [if_pos hmut, if_neg (by simp [hpriok])]
    dsimp only
    rw [List.filter_filter]
    refine List.filter_congr ?_
    intro x hx
    have hany : (relatedModels cfg op.model).any
        (fun rel => !(op.invFail (mkPattern rel)) && patMatches rel x.1) =
        (relatedModels cfg op.model).any (fun rel => patMatches rel x.1) := by
      refine any_congr_mem ?_
      intro rel hrel
      rw [hrelok rel hrel]
      simp
    rw [hany]
    exact Bool.and_comm ..
  refine ⟨hstore, ?_⟩
  intro x hx hm hrels
  rw [hstore]
  refine List.mem_filter.mpr ⟨hx, ?_⟩
  rw [hm]
  simp only [Bool.not_false, Bool.true_and, Bool.not_eq_true']
  rw [List.any_eq_false]
  intro rel hrel
  simp [hrels rel hrel]

/-- Witness for C9: the entry stored under the `Article` cache key survives
a `deleteMany` on `User` (whose rule sets `cacheKey: "Article"` and
declares `Profile` as related). -/
theorem C9_primary_invalidation_uses_model_name_witness :
    ("Article~a", (1 : Nat)) ∈ (step cfgC9w stC9w opC9w).store :=
  (C9_primary_invalidation_uses_model_name cfgC9w stC9w opC9w (by decide) rfl
    (by decide)).2 ("Article~a", 1) (by decide) (by decide) (by decide)

/-- C10: the runtime global exclusion set (`excludedCacheMethods`,
extension.ts lines 40-42) is exactly the intersection of the built-in
`defaultCacheMethods` list with the configured `excludeMethods`; an
operation name in `excludeMethods` that is not a default cache method is
therefore never a member, i.e. it is silently ignored and never excluded. -/
theorem C10_excluded_methods_intersection (cfg : CacheConfig) (opname : String) :
    opname ∈ excludedCacheMethods cfg ↔
      opname ∈ defaultCacheMethods ∧ opname ∈ cfg.excludeMethods := by
  simp [excludedCacheMethods, List.mem_filter]

end PrismaCache
